import Mathlib

/-!
Verification of the MyShell_RFD configuration-section editor and the
snapshot/rollback manager, shallowly embedded from the Python sources:

* `src/myshell_rfd/utils/files.py` (`FileOperations.add_to_config`,
  `FileOperations.remove_from_config`),
* `src/myshell_rfd/core/module_base.py` (`BaseModule.check_installed`),
* `migration/src/myshell_rfd/core/rollback.py` (`RollbackManager`).

File contents are modelled as `List Char` (Python `str`), the filesystem as a
partial map from paths to contents.  Nondeterministic inputs of the Python code
(`uuid4` snapshot ids, `datetime.now` timestamps) are passed in explicitly as
oracle arguments.
-/

namespace MyShellRFD

/-- File contents / strings are modelled as lists of characters. -/
abbrev Chars := List Char

/-- Python's substring test `needle in hay`. -/
def hasSubstr : Chars → Chars → Bool
  | [], needle => needle.isEmpty
  | h :: t, needle => needle.isPrefixOf (h :: t) || hasSubstr t needle

/-- Python `str.strip()` whitespace class, restricted to ASCII
(all file contents manipulated by the tool are ASCII). -/
def isPyWs (c : Char) : Bool :=
  c = ' ' || c = '\t' || c = '\n' || c = '\r' || c = '\x0b' || c = '\x0c'

/-- Python `str.strip()`: drop leading and trailing whitespace. -/
def pyStrip (s : Chars) : Chars :=
  ((s.dropWhile isPyWs).reverse.dropWhile isPyWs).reverse

/-- The line boundary characters of Python `str.splitlines`. -/
def isLineBreak (c : Char) : Bool :=
  c = '\n' || c = '\r' || c = '\x0b' || c = '\x0c' || c = '\x1c' || c = '\x1d' ||
  c = '\x1e' || c = '\x85' || c = '\u2028' || c = '\u2029'

/-- Worker for `pySplitLinesKeep`; `acc` holds the current line reversed.
A `"\r\n"` pair is a single boundary kept with its line. -/
def splitLinesGo (acc : Chars) : Chars → List Chars
  | [] => if acc.isEmpty then [] else [acc.reverse]
  | '\r' :: '\n' :: rest => (acc.reverse ++ ['\r', '\n']) :: splitLinesGo [] rest
  | c :: rest =>
    if isLineBreak c then (acc.reverse ++ [c]) :: splitLinesGo [] rest
    else splitLinesGo (c :: acc) rest

/-- Python `str.splitlines(keepends=True)`. -/
def pySplitLinesKeep (s : Chars) : List Chars := splitLinesGo [] s

/-- The regex `^#  \[.+\]\s*$` of `FileOperations.remove_from_config`
(`re.match` anchored at the start; `\s*$` absorbs trailing whitespace
including the final newline; `.` does not match a newline). -/
def sectionStartMatch (line : Chars) : Bool :=
  match line with
  | '#' :: ' ' :: ' ' :: '[' :: rest =>
    let r := (rest.reverse.dropWhile isPyWs).reverse
    decide (2 ≤ r.length) && r.getLast? == some ']' && !(r.dropLast.contains '\n')
  | _ => false

/-- The horizontal rule of `CONFIG_HEADER`: `"# "` followed by sixty `'='`
characters and a newline. -/
def headerRule : Chars := "# ".data ++ List.replicate 60 '=' ++ "\n".data

/-- `CONFIG_HEADER` from `utils/files.py`. -/
def CONFIG_HEADER : Chars :=
  headerRule ++
  "# MyShell_RFD Configuration\n".data ++
  headerRule ++
  ("# This file is managed by MyShell_RFD. Do not edit manually!\n" ++
   "# Your custom ZSH configuration should remain in ~/.zshrc\n" ++
   "#\n" ++
   "# To add/remove modules, use:\n" ++
   "#   myshell install <module>\n" ++
   "#   myshell uninstall <module>\n" ++
   "#\n" ++
   "# Or launch the TUI:\n" ++
   "#   myshell\n").data ++
  headerRule ++ "\n".data

/-- The marker line written by `add_to_config`: `##### {name} #####`. -/
def startMarker (name : Chars) : Chars :=
  "##### ".data ++ name ++ " #####".data

/-- The legacy marker `# >>> MyShell_RFD [{name}]` of `check_installed`. -/
def legacyMarker (name : Chars) : Chars :=
  "# >>> MyShell_RFD [".data ++ name ++ "]".data

/-- The `new_marker` string `#  [{name}]` of `BaseModule.check_installed`. -/
def newCheckMarker (name : Chars) : Chars :=
  "#  [".data ++ name ++ "]".data

/-- `FileOperations.add_to_config` at the level of file contents.
`file = none` models a missing file; the returned pair is the resulting file
content and the boolean returned by the Python method.  The `append_file`
call re-reads the file and inserts a separating newline when the existing
content does not end with one. -/
def add_to_config (file : Option Chars) (section_name content : Chars) :
    Option Chars × Bool :=
  let start_marker := startMarker section_name
  let is_new := match file with
    | none => true
    | some s => (pyStrip s).isEmpty
  let existing := if is_new then CONFIG_HEADER else file.getD []
  let file1 : Option Chars := if is_new then some CONFIG_HEADER else file
  if hasSubstr existing start_marker then (file1, false)
  else
    let sec := ['\n'] ++ start_marker ++ ['\n'] ++ pyStrip content ++ ['\n']
    let existing2 := file1.getD []
    let sec2 :=
      if !existing2.isEmpty && !(existing2.getLast? == some '\n') then
        '\n' :: sec
      else sec
    (some (existing2 ++ sec2), true)

/-- One iteration of the line loop in `remove_from_config`.  The state is the
accumulated kept lines and the `skip_line` flag. -/
def removeStep (start_marker : Chars) (st : List Chars × Bool) (line : Chars) :
    List Chars × Bool :=
  if hasSubstr line start_marker then (st.1, true)
  else if st.2 then
    if sectionStartMatch line then (st.1 ++ [line], false) else (st.1, true)
  else (st.1 ++ [line], false)

/-- The pattern `"\n\n\n"` collapsed by `remove_from_config`. -/
def tripleNL : Chars := ['\n', '\n', '\n']

/-- Python `content.replace("\n\n\n", "\n\n")`: replace all non-overlapping
occurrences, scanning left to right. -/
def replaceTriple : Chars → Chars
  | [] => []
  | '\n' :: '\n' :: '\n' :: t => '\n' :: '\n' :: replaceTriple t
  | c :: t => c :: replaceTriple t

/-- The `while "\n\n\n" in new_content` loop of `remove_from_config`.
Each iteration strictly shortens the string, so `s.length` iterations always
suffice; the fuel only makes termination evident. -/
def collapseLoop : Nat → Chars → Chars
  | 0, s => s
  | fuel + 1, s =>
    if hasSubstr s tripleNL then collapseLoop fuel (replaceTriple s) else s

/-- Collapse runs of three or more newlines down to two, as the trailing
normalization of `remove_from_config` does. -/
def collapseBlank (s : Chars) : Chars := collapseLoop s.length s

/-- `FileOperations.remove_from_config` at the level of file contents. -/
def remove_from_config (file : Option Chars) (section_name : Chars) :
    Option Chars × Bool :=
  match file with
  | none => (none, false)
  | some content =>
    let new_start := startMarker section_name
    if !hasSubstr content new_start then (some content, false)
    else
      let lines := pySplitLinesKeep content
      let res := lines.foldl (removeStep new_start) ([], false)
      let new_content := collapseBlank res.1.flatten
      (some new_content, true)

/-- `BaseModule.check_installed` on the content of the shell config file
(`none` models a missing file): the section presence check. -/
def check_installed (file : Option Chars) (name : Chars) : Bool :=
  match file with
  | none => false
  | some content =>
    hasSubstr content (newCheckMarker name) || hasSubstr content (legacyMarker name)

/-! ## The snapshot / rollback manager (`migration/.../core/rollback.py`)

Paths are lists of components; the filesystem is a partial map from paths to
file contents (directories are implicit).  `shutil.rmtree` on a directory
removes every file whose path has the directory as a prefix, so guarding it
with `.exists()` as the source does makes no observable difference here. -/

/-- Filesystem paths, as lists of components. -/
abbrev FPath := List String

/-- `SNAPSHOTS_DIR = BACKUP_DIR / "snapshots"` (a fixed directory). -/
def SNAPSHOTS_DIR : FPath := ["~", ".myshell_rfd", "backups", "snapshots"]

/-- The backup directory of one snapshot: `SNAPSHOTS_DIR / id`. -/
def snapDir (id : String) : FPath := SNAPSHOTS_DIR ++ [id]

/-- The filesystem: file path to content (`none` = file absent). -/
abbrev FS := FPath → Option String

/-- `path.write_bytes(v)`. -/
def fsWrite (fs : FS) (p : FPath) (v : String) : FS :=
  fun q => if q = p then some v else fs q

/-- `path.unlink()` (the source guards it with `.exists()`, which makes no
difference to the resulting map). -/
def fsUnlink (fs : FS) (p : FPath) : FS :=
  fun q => if q = p then none else fs q

/-- `shutil.rmtree(dir)`: remove every file under `dir`. -/
def fsRmtree (fs : FS) (dir : FPath) : FS :=
  fun q => if dir.isPrefixOf q then none else fs q

/-- `Path(p).name`: the last path component. -/
def baseName (p : FPath) : String := p.getLastD ""

/-- The `SnapshotFile` dataclass.  A non-existing file is recorded with
`backup_path = ""`, modelled by the empty path `[]`. -/
structure SnapFile where
  original_path : FPath
  backup_path : FPath
  existed : Bool
deriving DecidableEq

/-- The `Snapshot` dataclass. -/
structure Snapshot where
  id : String
  created_at : String
  description : String
  files : List SnapFile
  modules : List String
deriving DecidableEq

/-- The in-memory state of a `RollbackManager`: its snapshot list
(`self._snapshots`, newest first) and the filesystem it operates on.
`max_snapshots` is a constructor parameter of the manager and is passed to
each operation below.  The `index.json` mirror rewritten by `_save_index`
is not observed by any operation modelled here (it is read only on
construction, modelled separately by `load_index`). -/
structure RState where
  snapshots : List Snapshot
  fs : FS

/-- One iteration of the backup loop in `create_snapshot`: copy an existing
file into the snapshot directory and record it, or record its absence. -/
def captureStep (dir : FPath) (st : FS × List SnapFile) (fp : FPath) :
    FS × List SnapFile :=
  match st.1 fp with
  | some bytes =>
    (fsWrite st.1 (dir ++ [baseName fp]) bytes,
     st.2 ++ [⟨fp, dir ++ [baseName fp], true⟩])
  | none => (st.1, st.2 ++ [⟨fp, [], false⟩])

/-- The loop body of `RollbackManager._cleanup_old`, with an explicit fuel
bound.  Every iteration removes one list entry, so `snaps.length` units of
fuel always suffice (with the list empty, the loop condition is false, so
running out of fuel and stopping agree). -/
def cleanupLoop (maxS : Nat) : Nat → List Snapshot → FS → List Snapshot × FS
  | 0, snaps, fs => (snaps, fs)
  | fuel + 1, snaps, fs =>
    if maxS < snaps.length then
      match snaps.getLast? with
      | some old =>
        cleanupLoop maxS fuel snaps.dropLast (fsRmtree fs (snapDir old.id))
      | none => (snaps, fs)
    else (snaps, fs)

/-- `RollbackManager._cleanup_old`: while the list is longer than
`max_snapshots`, pop the last (oldest) snapshot and delete its backup
directory. -/
def cleanup_old (maxS : Nat) (snaps : List Snapshot) (fs : FS) :
    List Snapshot × FS :=
  cleanupLoop maxS snaps.length snaps fs

/-- `RollbackManager.create_snapshot`.  The fresh `uuid4` id and the
`datetime.now` timestamp are passed in as oracle arguments `id`/`created_at`.
Returns the new state and the created snapshot record. -/
def create_snapshot (maxS : Nat) (id created_at description : String)
    (files : List FPath) (modules : List String) (st : RState) :
    RState × Snapshot :=
  let dir := snapDir id
  let r := files.foldl (captureStep dir) (st.fs, [])
  let snap : Snapshot := ⟨id, created_at, description, r.2, modules⟩
  let c := cleanup_old maxS (snap :: st.snapshots) r.1
  (⟨c.1, c.2⟩, snap)

/-- `RollbackManager.list_snapshots` (the yielded sequence). -/
def list_snapshots (st : RState) : List Snapshot := st.snapshots

/-- `RollbackManager.get_snapshot`: first snapshot (newest first) whose id
starts with the given string (`snapshot.id.startswith(snapshot_id)`, i.e. the
given string is a prefix of the snapshot's id). -/
def get_snapshot (snaps : List Snapshot) (sid : String) : Option Snapshot :=
  snaps.find? (fun s => sid.data.isPrefixOf s.id.data)

/-- One iteration of the restore loop in `rollback`: restore an `existed`
file from its backup when the backup still exists, otherwise delete the
path that did not exist at snapshot time. -/
def restoreStep (fs : FS) (fi : SnapFile) : FS :=
  if fi.existed then
    match fs fi.backup_path with
    | some bytes => fsWrite fs fi.original_path bytes
    | none => fs
  else fsUnlink fs fi.original_path

/-- `RollbackManager.rollback`.  `preId`/`preTs` are the oracle id and
timestamp used for the pre-rollback snapshot that `rollback` creates before
restoring. -/
def rollback (maxS : Nat) (preId preTs : String) (sid : String) (st : RState) :
    RState × Bool :=
  match get_snapshot st.snapshots sid with
  | none => (st, false)
  | some snapshot =>
    let current_files := snapshot.files.map (·.original_path)
    let pre := create_snapshot maxS preId preTs
      ("Pre-rollback state (before " ++ snapshot.id ++ ")") current_files [] st
    let fs2 := snapshot.files.foldl restoreStep pre.1.fs
    (⟨pre.1.snapshots, fs2⟩, true)

/-! ## Loading the snapshot index (`RollbackManager._load_index`)

`_load_index` reads `index.json`, parses it with `json.load` and rebuilds the
list with `Snapshot.from_dict`.  Only `json.JSONDecodeError` and `KeyError`
are caught.  We model parsed JSON values and the Python evaluation of
`from_dict`, distinguishing the caught exceptions from the uncaught ones
(`AttributeError`/`TypeError`). -/

/-- Parsed JSON values. -/
inductive JValue where
  | nullV : JValue
  | boolV : Bool → JValue
  | numV : Int → JValue
  | strV : String → JValue
  | arrV : List JValue → JValue
  | objV : List (String × JValue) → JValue

/-- Python exceptions relevant to `_load_index`.  `keyError` is caught by the
`except (json.JSONDecodeError, KeyError)` clause; the others are not. -/
inductive PyErr where
  | keyError : PyErr
  | typeError : PyErr
  | attributeError : PyErr
deriving DecidableEq

/-- A `SnapshotFile` as rebuilt by `SnapshotFile(**f)`: Python performs no
type checking, so the fields hold arbitrary JSON values. -/
structure ParsedFile where
  original_path : JValue
  backup_path : JValue
  existed : JValue

/-- A `Snapshot` as rebuilt by `Snapshot.from_dict`. -/
structure ParsedSnapshot where
  id : JValue
  created_at : JValue
  description : JValue
  files : List ParsedFile
  modules : JValue

/-- Python iteration `for x in v`: lists yield their items, strings their
characters, dicts their keys; other values raise `TypeError`. -/
def pyIterate : JValue → Except PyErr (List JValue)
  | .arrV l => .ok l
  | .strV s => .ok (s.data.map (fun c => .strV (String.mk [c])))
  | .objV fields => .ok (fields.map (fun kv => JValue.strV kv.1))
  | _ => .error .typeError

/-- Python `data[k]` on a dict: `KeyError` when the key is missing. -/
def getItem (fields : List (String × JValue)) (k : String) :
    Except PyErr JValue :=
  match fields.lookup k with
  | some v => .ok v
  | none => .error .keyError

/-- `SnapshotFile(**f)`: `f` must be a mapping whose keys are a subset of the
constructor parameters and contain the two required ones; `existed` defaults
to `True`.  Any violation raises `TypeError`. -/
def snapshot_file_from_kwargs : JValue → Except PyErr ParsedFile
  | .objV fields =>
    if fields.all
        (fun kv => kv.1 = "original_path" || kv.1 = "backup_path" || kv.1 = "existed") then
      match fields.lookup "original_path", fields.lookup "backup_path" with
      | some o, some b =>
        .ok ⟨o, b, (fields.lookup "existed").getD (.boolV true)⟩
      | _, _ => .error .typeError
    else .error .typeError
  | _ => .error .typeError

/-- `Snapshot.from_dict`: the `files` list comprehension runs first, then the
required keys are fetched (raising `KeyError` when absent); `data.get` on a
non-dict raises `AttributeError`. -/
def snapshot_from_dict : JValue → Except PyErr ParsedSnapshot
  | .objV fields => do
    let filesVal := (fields.lookup "files").getD (.arrV [])
    let items ← pyIterate filesVal
    let files ← items.mapM snapshot_file_from_kwargs
    let id ← getItem fields "id"
    let created ← getItem fields "created_at"
    let descr ← getItem fields "description"
    let modules := (fields.lookup "modules").getD (.arrV [])
    pure ⟨id, created, descr, files, modules⟩
  | _ => .error .attributeError

/-- `RollbackManager._load_index`.  The input models the on-disk index file:
`none` = the file does not exist, `some none` = its content is not valid JSON
(`json.JSONDecodeError`), `some (some v)` = it parses to the JSON value `v`.
Only `JSONDecodeError` and `KeyError` are caught and degrade to the empty
list; other exceptions escape to the caller. -/
def load_index (input : Option (Option JValue)) :
    Except PyErr (List ParsedSnapshot) :=
  match input with
  | none => .ok []
  | some none => .ok []
  | some (some data) =>
    match (do
      let items ← pyIterate data
      items.mapM snapshot_from_dict : Except PyErr (List ParsedSnapshot)) with
    | .ok l => .ok l
    | .error .keyError => .ok []
    | .error e => .error e

/-! ## Fixtures used by the concrete witnesses below -/

/-- A concrete snapshot record used by witness instantiations: it captured
the file `["f"]` into its backup directory. -/
def snapA : Snapshot :=
  ⟨"aaaa", "t0", "d0", [⟨["f"], snapDir "aaaa" ++ ["f"], true⟩], []⟩

/-- A concrete manager state for witness instantiations: one snapshot in the
index, the captured file currently holding `"v2"` and its backup `"v1"`. -/
def stA : RState :=
  ⟨[snapA], fun q =>
    if q = ["f"] then some "v2"
    else if q = snapDir "aaaa" ++ ["f"] then some "v1" else none⟩

/-! ## Basic lemmas about the string primitives -/

theorem hasSubstr_iff {hay needle : Chars} :
    hasSubstr hay needle = true ↔ needle <:+: hay := by
  induction hay with
  | nil =>
    simp [hasSubstr, List.isEmpty_iff]
  | cons h t ih =>
    simp [hasSubstr, Bool.or_eq_true, List.isPrefixOf_iff_prefix, ih,
      List.infix_cons_iff]

theorem hasSubstr_eq_false_iff {hay needle : Chars} :
    hasSubstr hay needle = false ↔ ¬ needle <:+: hay := by
  rw [← hasSubstr_iff, Bool.not_eq_true, Bool.eq_false_iff, ne_eq]

theorem pyStrip_eq_nil_iff {s : Chars} :
    pyStrip s = [] ↔ ∀ c ∈ s, isPyWs c := by
  unfold pyStrip
  rw [List.reverse_eq_nil_iff, List.dropWhile_eq_nil_iff]
  simp only [List.mem_reverse]
  constructor
  · intro h c hc
    rw [← List.takeWhile_append_dropWhile (p := isPyWs) (l := s)] at hc
    rcases List.mem_append.1 hc with h1 | h2
    · exact List.mem_takeWhile_imp h1
    · exact h c h2
  · intro h c hc
    exact h c ((List.dropWhile_sublist _).subset hc)

theorem infix_append_of_right {l l₂ : Chars} (l₁ : Chars) (h : l <:+: l₂) :
    l <:+: l₁ ++ l₂ := by
  obtain ⟨u, v, rfl⟩ := h
  exact ⟨l₁ ++ u, v, by simp⟩

theorem startMarker_head : ∃ t, startMarker X = '#' :: t := ⟨_, rfl⟩

/-- A string containing a section marker does not strip to the empty string. -/
theorem pyStrip_ne_nil_of_marker {s X : Chars} (h : startMarker X <:+: s) :
    ¬ (pyStrip s).isEmpty = true := by
  intro hempty
  rw [List.isEmpty_iff, pyStrip_eq_nil_iff] at hempty
  obtain ⟨t, ht⟩ := startMarker_head (X := X)
  have hmem : '#' ∈ s := h.subset (by rw [ht]; exact List.mem_cons_self _ _)
  have := hempty '#' hmem
  simp [isPyWs] at this

/-- `add_to_config` on a file that already contains the marker line:
return `false` and leave the file untouched. -/
theorem add_to_config_marker_present {s : Chars} (X c' : Chars)
    (hs : startMarker X <:+: s) :
    add_to_config (some s) X c' = (some s, false) := by
  unfold add_to_config
  simp only [pyStrip_ne_nil_of_marker hs, if_false, Bool.false_eq_true,
    Option.getD_some]
  rw [if_pos (hasSubstr_iff.2 hs)]

/-- A successful `add_to_config` leaves the marker line in the file. -/
theorem add_to_config_true_shape {file : Option Chars} {X c : Chars}
    (h : (add_to_config file X c).2 = true) :
    ∃ s, (add_to_config file X c).1 = some s ∧ startMarker X <:+: s := by
  unfold add_to_config at h ⊢
  set is_new := (match file with
    | none => true
    | some s => (pyStrip s).isEmpty) with hnew
  set existing := if is_new = true then CONFIG_HEADER else file.getD [] with hex
  set file1 : Option Chars := if is_new = true then some CONFIG_HEADER else file
    with hfile1
  by_cases hmarker : hasSubstr existing (startMarker X) = true
  · rw [if_pos hmarker] at h
    simp at h
  · rw [if_neg hmarker] at h ⊢
    dsimp only
    by_cases hnl :
        (!(file1.getD []).isEmpty && !((file1.getD []).getLast? == some '\n')) = true
    · rw [if_pos hnl]
      exact ⟨_, rfl,
        ⟨(file1.getD []) ++ ['\n', '\n'], '\n' :: (pyStrip c ++ ['\n']), by simp⟩⟩
    · rw [if_neg hnl]
      exact ⟨_, rfl,
        ⟨(file1.getD []) ++ ['\n'], '\n' :: (pyStrip c ++ ['\n']), by simp⟩⟩

/-! ## Lemmas about `pySplitLinesKeep` -/

theorem splitLinesGo_nil_eq (acc : Chars) :
    splitLinesGo acc [] = if acc.isEmpty then [] else [acc.reverse] := rfl

theorem splitLinesGo_crlf (acc rest : Chars) :
    splitLinesGo acc ('\r' :: '\n' :: rest) =
      (acc.reverse ++ ['\r', '\n']) :: splitLinesGo [] rest := rfl

set_option maxHeartbeats 1000000 in
theorem splitLinesGo_cons_ne (acc : Chars) (c : Char) (rest : Chars)
    (h : ¬ (c = '\r' ∧ rest.head? = some '\n')) :
    splitLinesGo acc (c :: rest) =
      if isLineBreak c then (acc.reverse ++ [c]) :: splitLinesGo [] rest
      else splitLinesGo (c :: acc) rest := by
  rw [splitLinesGo.eq_def]
  split
  next a heq =>
    exact absurd heq (by simp)
  next a rest1 heq =>
    injection heq with h1 h2
    exact absurd ⟨h1, by rw [h2]; rfl⟩ h
  next a c2 rest2 hcond heq =>
    injection heq with h1 h2
    subst h1
    subst h2
    rfl

/-- Unconditional unfolding of `splitLinesGo` on a cons cell. -/
theorem splitLinesGo_cons_eq (acc : Chars) (c : Char) (rest : Chars) :
    splitLinesGo acc (c :: rest) =
      if c = '\r' ∧ rest.head? = some '\n' then
        (acc.reverse ++ ['\r', '\n']) :: splitLinesGo [] rest.tail
      else if isLineBreak c then (acc.reverse ++ [c]) :: splitLinesGo [] rest
      else splitLinesGo (c :: acc) rest := by
  by_cases hp : c = '\r' ∧ rest.head? = some '\n'
  · obtain ⟨rfl, hh⟩ := hp
    cases rest with
    | nil => simp at hh
    | cons r rest' =>
      simp only [List.head?_cons, Option.some.injEq] at hh
      subst hh
      rw [if_pos ⟨rfl, rfl⟩, splitLinesGo_crlf]
      rfl
  · rw [if_neg hp, splitLinesGo_cons_ne _ _ _ hp]

/-- Joining the kept-ends lines reconstructs the input. -/
theorem splitLinesGo_flatten (acc s : Chars) :
    (splitLinesGo acc s).flatten = acc.reverse ++ s := by
  induction acc, s using splitLinesGo.induct with
  | case1 acc h =>
    rw [List.isEmpty_iff] at h
    subst h
    simp [splitLinesGo_nil_eq]
  | case2 acc h =>
    simp [splitLinesGo_nil_eq, h]
  | case3 acc rest ih =>
    simp [splitLinesGo_crlf, ih]
  | case4 acc c rest hne hbr ih =>
    have hpair : ¬ (c = '\r' ∧ rest.head? = some '\n') := by
      rintro ⟨rfl, hh⟩
      cases rest with
      | nil => simp at hh
      | cons r rest' =>
        simp only [List.head?_cons, Option.some.injEq] at hh
        exact hne rest' rfl (by rw [hh])
    rw [splitLinesGo_cons_ne _ _ _ hpair, if_pos hbr]
    simp [ih]
  | case5 acc c rest hne hbr ih =>
    have hpair : ¬ (c = '\r' ∧ rest.head? = some '\n') := by
      rintro ⟨rfl, hh⟩
      exact hbr (by simp [isLineBreak])
    rw [splitLinesGo_cons_ne _ _ _ hpair, if_neg hbr]
    simp [ih]

theorem pySplitLinesKeep_flatten (s : Chars) : (pySplitLinesKeep s).flatten = s := by
  simpa using splitLinesGo_flatten [] s

/-- Every kept-ends line is an infix of the input. -/
theorem infix_of_mem_pySplitLinesKeep {l s : Chars}
    (h : l ∈ pySplitLinesKeep s) : l <:+: s := by
  have := List.infix_of_mem_flatten h
  rwa [pySplitLinesKeep_flatten] at this

/-- Splitting distributes over an append at a newline boundary. -/
theorem splitLinesGo_append (t acc s : Chars) :
    s.getLast? = some '\n' →
      splitLinesGo acc (s ++ t) = splitLinesGo acc s ++ splitLinesGo [] t := by
  induction acc, s using splitLinesGo.induct with
  | case1 acc h => intro hs; simp at hs
  | case2 acc h => intro hs; simp at hs
  | case3 acc rest ih =>
    intro hs
    cases rest with
    | nil =>
      simp only [List.cons_append, List.nil_append, splitLinesGo_crlf,
        splitLinesGo_nil_eq]
      simp
    | cons r rest' =>
      rw [List.getLast?_cons_cons, List.getLast?_cons_cons] at hs
      have H := ih hs
      simp only [List.cons_append] at H ⊢
      rw [splitLinesGo_crlf, splitLinesGo_crlf, H]
      simp
  | case4 acc c rest hne hbr ih =>
    intro hs
    cases rest with
    | nil =>
      simp only [List.getLast?_singleton, Option.some.injEq] at hs
      subst hs
      have hp : ∀ u : Chars, ¬ (('\n' : Char) = '\r' ∧ u.head? = some '\n') := by
        rintro u ⟨h1, -⟩
        exact absurd h1 (by decide)
      simp only [List.cons_append, List.nil_append]
      rw [splitLinesGo_cons_ne _ _ _ (hp t), splitLinesGo_cons_ne _ _ _ (hp []),
        if_pos hbr, if_pos hbr, splitLinesGo_nil_eq]
      simp
    | cons r rest' =>
      rw [List.getLast?_cons_cons] at hs
      have hpair : ∀ u : Chars, ¬ (c = '\r' ∧ (r :: u).head? = some '\n') := by
        rintro u ⟨rfl, hh⟩
        simp only [List.head?_cons, Option.some.injEq] at hh
        exact hne rest' rfl (by rw [hh])
      have H := ih hs
      simp only [List.cons_append] at H ⊢
      rw [splitLinesGo_cons_ne _ _ _ (hpair (rest' ++ t)), if_pos hbr,
        splitLinesGo_cons_ne _ _ _ (hpair rest'), if_pos hbr, H]
      simp
  | case5 acc c rest hne hbr ih =>
    intro hs
    have hcr : c ≠ '\r' := by
      rintro rfl
      exact hbr (by simp [isLineBreak])
    cases rest with
    | nil =>
      simp only [List.getLast?_singleton, Option.some.injEq] at hs
      subst hs
      exact absurd (by simp [isLineBreak]) hbr
    | cons r rest' =>
      rw [List.getLast?_cons_cons] at hs
      have hpair : ∀ u : Chars, ¬ (c = '\r' ∧ u.head? = some '\n') := by
        rintro u ⟨rfl, -⟩; exact hcr rfl
      have H := ih hs
      simp only [List.cons_append] at H ⊢
      rw [splitLinesGo_cons_ne _ _ _ (hpair _), if_neg hbr,
        splitLinesGo_cons_ne _ _ _ (hpair _), if_neg hbr, H]

/-- A run of non-boundary characters followed by a newline forms one line. -/
theorem splitLinesGo_no_break (s : Chars)
    (hnb : ∀ ch ∈ s, isLineBreak ch = false) :
    ∀ (acc rest : Chars),
      splitLinesGo acc (s ++ '\n' :: rest) =
        (acc.reverse ++ s ++ ['\n']) :: splitLinesGo [] rest := by
  induction s with
  | nil =>
    intro acc rest
    rw [List.nil_append,
      splitLinesGo_cons_ne _ _ _ (by rintro ⟨h, -⟩; exact absurd h (by decide)),
      if_pos (by decide)]
    simp
  | cons a s ih =>
    intro acc rest
    have ha := hnb a (by simp)
    have har : a ≠ '\r' := by
      rintro rfl
      simp [isLineBreak] at ha
    rw [List.cons_append,
      splitLinesGo_cons_ne _ _ _ (by rintro ⟨h, -⟩; exact absurd h har),
      if_neg (by simp [ha]),
      ih (fun ch hch => hnb ch (by simp [hch])) (a :: acc) rest]
    simp

/-! ## Lemmas about the removal loop and blank-line collapsing -/

/-- Lines not containing the marker are kept verbatim while not skipping. -/
theorem removeLoop_keep_all (m : Chars) (L : List Chars)
    (h : ∀ l ∈ L, hasSubstr l m = false) :
    ∀ acc : List Chars, L.foldl (removeStep m) (acc, false) = (acc ++ L, false) := by
  induction L with
  | nil => intro acc; simp
  | cons l L ih =>
    intro acc
    have hl := h l (by simp)
    rw [List.foldl_cons]
    show L.foldl (removeStep m) (removeStep m (acc, false) l) = _
    rw [show removeStep m (acc, false) l = (acc ++ [l], false) by
      simp [removeStep, hl]]
    rw [ih (fun x hx => h x (by simp [hx])) (acc ++ [l])]
    simp

/-- While skipping, lines that do not match the boundary regex are dropped. -/
theorem removeLoop_skip_all (m : Chars) (L : List Chars)
    (h : ∀ l ∈ L, sectionStartMatch l = false) :
    ∀ acc : List Chars, L.foldl (removeStep m) (acc, true) = (acc, true) := by
  induction L with
  | nil => intro acc; simp
  | cons l L ih =>
    intro acc
    have hl := h l (by simp)
    rw [List.foldl_cons]
    show L.foldl (removeStep m) (removeStep m (acc, true) l) = _
    rw [show removeStep m (acc, true) l = (acc, true) by
      by_cases hm : hasSubstr l m = true <;> simp [removeStep, hm, hl]]
    exact ih (fun x hx => h x (by simp [hx])) acc

theorem collapseLoop_eq_self (n : Nat) {s : Chars}
    (h : hasSubstr s tripleNL = false) : collapseLoop n s = s := by
  cases n
  · rfl
  · simp [collapseLoop, h]

theorem collapseBlank_eq_self {s : Chars}
    (h : hasSubstr s tripleNL = false) : collapseBlank s = s :=
  collapseLoop_eq_self _ h

/-- Appending one newline to a string that has no triple newline and does not
end in a blank line cannot create a triple newline. -/
theorem no_triple_of_append_newline {s : Chars}
    (h3 : ¬ tripleNL <:+: s) (h2 : ¬ ['\n', '\n'] <:+ s) :
    ¬ tripleNL <:+: (s ++ ['\n']) := by
  intro hinf
  rcases List.infix_concat_iff.1 hinf with hsuf | hin
  · rcases List.suffix_concat_iff.1 hsuf with hnil | ⟨t, ht, hts⟩
    · exact absurd hnil (by decide)
    · have : t = ['\n', '\n'] :=
        List.append_cancel_right (by rw [← ht]; rfl)
      exact h2 (this ▸ hts)
  · exact h3 hin

/-- An infix that contains no newline cannot use a newline appended at the
end: it is already an infix of the original string. -/
theorem infix_of_infix_append_newline {p s : Chars}
    (hnl : '\n' ∉ p) (h : p <:+: s ++ ['\n']) : p <:+: s := by
  rcases List.infix_concat_iff.1 h with hsuf | hin
  · rcases List.suffix_concat_iff.1 hsuf with hnil | ⟨t, ht, -⟩
    · subst hnil; exact List.nil_infix
    · exact absurd (by rw [ht]; simp) hnl
  · exact hin

set_option maxRecDepth 100000 in
/-- `CONFIG_HEADER` contains no run of five `#` characters, hence no
section marker for any name. -/
theorem startMarker_not_infix_header {X : Chars} :
    ¬ startMarker X <:+: CONFIG_HEADER := by
  intro hinf
  obtain ⟨p, q, hpq⟩ := hinf
  have h5 : ("##### ".data : Chars) <:+: CONFIG_HEADER :=
    ⟨p, X ++ " #####".data ++ q, by rw [← hpq]; simp [startMarker]⟩
  exact absurd (hasSubstr_iff.2 h5) (by decide)

/-- Removing the section that `add_to_config` just appended to `pre` drops
exactly the marker line and the stripped contents, keeping the prior lines
and the separating blank line, then collapses blank runs. -/
theorem remove_appended_section (pre X c : Chars)
    (hlast : pre.getLast? = some '\n')
    (hm : ¬ startMarker X <:+: pre)
    (hX : ∀ ch ∈ X, isLineBreak ch = false)
    (hcontent : ∀ l ∈ pySplitLinesKeep (pyStrip c ++ ['\n']),
      sectionStartMatch l = false) :
    remove_from_config
        (some (pre ++ ('\n' :: (startMarker X ++ '\n' :: (pyStrip c ++ ['\n'])))))
        X = (some (collapseBlank (pre ++ ['\n'])), true) := by
  have hmnb : ∀ ch ∈ startMarker X, isLineBreak ch = false := by
    have hA : ∀ ch ∈ ("##### ".data : Chars), isLineBreak ch = false := by decide
    have hB : ∀ ch ∈ (" #####".data : Chars), isLineBreak ch = false := by decide
    intro ch hch
    rcases List.mem_append.1 hch with h | h
    · rcases List.mem_append.1 h with h' | h'
      · exact hA ch h'
      · exact hX ch h'
    · exact hB ch h
  have hkeep0 : ∀ l ∈ pySplitLinesKeep pre, hasSubstr l (startMarker X) = false :=
    fun l hl => hasSubstr_eq_false_iff.2
      (fun hml => hm (hml.trans (infix_of_mem_pySplitLinesKeep hl)))
  have hnl_line : hasSubstr ['\n'] (startMarker X) = false := by
    rw [hasSubstr_eq_false_iff]
    intro hml
    obtain ⟨t, ht⟩ := startMarker_head (X := X)
    have : '#' ∈ (['\n'] : Chars) := hml.subset (by rw [ht]; simp)
    simp at this
  have hmline : hasSubstr (startMarker X ++ ['\n']) (startMarker X) = true :=
    hasSubstr_iff.2 ⟨[], ['\n'], by simp⟩
  have hsplit2 : pySplitLinesKeep
      ('\n' :: (startMarker X ++ '\n' :: (pyStrip c ++ ['\n']))) =
      ['\n'] :: (startMarker X ++ ['\n']) ::
        pySplitLinesKeep (pyStrip c ++ ['\n']) := by
    show splitLinesGo [] _ = _
    rw [show ('\n' :: (startMarker X ++ '\n' :: (pyStrip c ++ ['\n']))) =
      ['\n'] ++ (startMarker X ++ '\n' :: (pyStrip c ++ ['\n'])) from rfl]
    rw [splitLinesGo_append _ [] ['\n'] (by decide)]
    rw [splitLinesGo_no_break (startMarker X) hmnb [] (pyStrip c ++ ['\n'])]
    rfl
  have hsplit1 : pySplitLinesKeep
      (pre ++ ('\n' :: (startMarker X ++ '\n' :: (pyStrip c ++ ['\n'])))) =
      pySplitLinesKeep pre ++ (['\n'] :: (startMarker X ++ ['\n']) ::
        pySplitLinesKeep (pyStrip c ++ ['\n'])) := by
    rw [← hsplit2]
    exact splitLinesGo_append _ [] pre hlast
  have hsub : hasSubstr
      (pre ++ ('\n' :: (startMarker X ++ '\n' :: (pyStrip c ++ ['\n']))))
      (startMarker X) = true := by
    refine hasSubstr_iff.2 ?_
    exact ⟨pre ++ ['\n'], '\n' :: (pyStrip c ++ ['\n']), by simp⟩
  simp only [remove_from_config, hsub, Bool.not_true, Bool.false_eq_true,
    if_false]
  rw [hsplit1, List.foldl_append, removeLoop_keep_all _ _ hkeep0 [],
    List.nil_append, List.foldl_cons,
    show removeStep (startMarker X) (pySplitLinesKeep pre, false) ['\n'] =
      (pySplitLinesKeep pre ++ [['\n']], false) by
        simp [removeStep, hnl_line],
    List.foldl_cons,
    show removeStep (startMarker X) (pySplitLinesKeep pre ++ [['\n']], false)
        (startMarker X ++ ['\n']) =
        (pySplitLinesKeep pre ++ [['\n']], true) by
      simp [removeStep, hmline],
    removeLoop_skip_all _ _ hcontent _]
  simp only [List.flatten_append, pySplitLinesKeep_flatten]
  rw [show (([['\n']] : List Chars)).flatten = ['\n'] by rfl]

/-! ## Lemmas about the filesystem primitives and paths -/

theorem fsWrite_self {fs : FS} {p : FPath} {v : String} :
    fsWrite fs p v p = some v := by simp [fsWrite]

theorem fsWrite_ne {fs : FS} {p q : FPath} {v : String} (h : q ≠ p) :
    fsWrite fs p v q = fs q := by simp [fsWrite, h]

theorem fsUnlink_self {fs : FS} {p : FPath} : fsUnlink fs p p = none := by
  simp [fsUnlink]

theorem fsUnlink_ne {fs : FS} {p q : FPath} (h : q ≠ p) :
    fsUnlink fs p q = fs q := by simp [fsUnlink, h]

theorem fsRmtree_none {fs : FS} {dir q : FPath} (h : dir.isPrefixOf q = true) :
    fsRmtree fs dir q = none := by simp [fsRmtree, h]

theorem fsRmtree_ne {fs : FS} {dir q : FPath} (h : dir.isPrefixOf q = false) :
    fsRmtree fs dir q = fs q := by simp [fsRmtree, h]

theorem snapDir_prefixOf_backup {i : String} {b : String} :
    (snapDir i).isPrefixOf (snapDir i ++ [b]) = true := by
  simp

/-- `snapDir a` is a prefix of a file path inside `snapDir b` only for the
same snapshot id. -/
theorem snapDir_prefixOf_backup_iff {a b : String} {x : String} :
    (snapDir a).isPrefixOf (snapDir b ++ [x]) = true ↔ a = b := by
  simp only [snapDir, List.isPrefixOf_iff_prefix, List.append_assoc,
    List.prefix_append_right_inj, List.cons_prefix_cons]
  simp

/-- A path not under `SNAPSHOTS_DIR` is never a backup-file path. -/
theorem ne_backup_of_not_under {p : FPath} {i b : String}
    (h : SNAPSHOTS_DIR.isPrefixOf p = false) : p ≠ snapDir i ++ [b] := by
  rintro rfl
  have htrue : SNAPSHOTS_DIR.isPrefixOf (snapDir i ++ [b]) = true := by
    rw [List.isPrefixOf_iff_prefix,
      show (snapDir i ++ [b] : FPath) = SNAPSHOTS_DIR ++ ([i] ++ [b]) by
        simp [snapDir]]
    exact List.prefix_append _ _
  rw [htrue] at h
  simp at h

theorem not_snapDir_prefixOf_of_not_under {p : FPath} {i : String}
    (h : SNAPSHOTS_DIR.isPrefixOf p = false) :
    (snapDir i).isPrefixOf p = false := by
  cases hs : (snapDir i).isPrefixOf p with
  | false => rfl
  | true =>
    rw [List.isPrefixOf_iff_prefix] at hs
    have hsp : SNAPSHOTS_DIR <+: p := (List.prefix_append _ _).trans hs
    rw [show SNAPSHOTS_DIR.isPrefixOf p = true by
      rw [List.isPrefixOf_iff_prefix]; exact hsp] at h
    simp at h

/-! ## The retention loop `_cleanup_old` -/

theorem cleanupLoop_spec (maxS : Nat) :
    ∀ (fuel : Nat) (snaps : List Snapshot) (fs : FS),
      snaps.length ≤ fuel →
      (cleanupLoop maxS fuel snaps fs).1 = snaps.take maxS ∧
      ∀ q : FPath, (cleanupLoop maxS fuel snaps fs).2 q =
        if (snaps.drop maxS).any (fun t => (snapDir t.id).isPrefixOf q) then
          none
        else fs q := by
  intro fuel
  induction fuel with
  | zero =>
    intro snaps fs hlen
    rw [List.length_eq_zero.1 (Nat.le_zero.1 hlen)]
    simp [cleanupLoop]
  | succ fuel ih =>
    intro snaps fs hlen
    by_cases h : maxS < snaps.length
    · have hne : snaps ≠ [] := by
        intro he
        rw [he] at h
        simp at h
      obtain ⟨ys, y, rfl⟩ : ∃ ys y, snaps = ys ++ [y] := by
        refine ⟨snaps.dropLast, snaps.getLast hne, ?_⟩
        rw [List.dropLast_concat_getLast]
      have hlast : (ys ++ [y]).getLast? = some y := by
        rw [List.getLast?_concat]
      have hys : ys.length ≤ fuel := by
        simp at hlen
        omega
      have hstep : cleanupLoop maxS (fuel + 1) (ys ++ [y]) fs =
          cleanupLoop maxS fuel ys (fsRmtree fs (snapDir y.id)) := by
        rw [cleanupLoop, if_pos h, hlast]
        simp
      obtain ⟨ih1, ih2⟩ := ih ys (fsRmtree fs (snapDir y.id)) hys
      have hmy : maxS ≤ ys.length := by
        simp at h
        omega
      constructor
      · rw [hstep, ih1, List.take_append_of_le_length hmy]
      · intro q
        rw [hstep, ih2 q]
        rw [List.drop_append_of_le_length hmy, List.any_append]
        simp only [List.any_cons, List.any_nil, Bool.or_false]
        cases hA : (ys.drop maxS).any (fun t => (snapDir t.id).isPrefixOf q) with
        | true => simp [hA]
        | false =>
          cases h2 : (snapDir y.id).isPrefixOf q with
          | true => simp [hA, h2, fsRmtree_none h2]
          | false => simp [hA, h2, fsRmtree_ne h2]
    · rw [cleanupLoop, if_neg h]
      push_neg at h
      rw [List.take_of_length_le h, List.drop_eq_nil_of_le h]
      simp

theorem cleanup_old_fst (maxS : Nat) (snaps : List Snapshot) (fs : FS) :
    (cleanup_old maxS snaps fs).1 = snaps.take maxS :=
  (cleanupLoop_spec maxS snaps.length snaps fs (Nat.le_refl _)).1

theorem cleanup_old_snd (maxS : Nat) (snaps : List Snapshot) (fs : FS)
    (q : FPath) :
    (cleanup_old maxS snaps fs).2 q =
      if (snaps.drop maxS).any (fun t => (snapDir t.id).isPrefixOf q) then none
      else fs q :=
  (cleanupLoop_spec maxS snaps.length snaps fs (Nat.le_refl _)).2 q

theorem cleanup_old_snd_preserve {maxS : Nat} {snaps : List Snapshot} {fs : FS}
    {q : FPath}
    (h : ∀ t ∈ snaps.drop maxS, (snapDir t.id).isPrefixOf q = false) :
    (cleanup_old maxS snaps fs).2 q = fs q := by
  rw [cleanup_old_snd, if_neg]
  rw [Bool.not_eq_true, List.any_eq_false]
  intro t ht
  simp [h t ht]

/-! ## The backup loop of `create_snapshot` -/

/-- The backup loop writes only under the snapshot directory. -/
theorem captureFold_fst_outside (dir : FPath) (ps : List FPath) :
    ∀ (fs : FS) (acc : List SnapFile) (q : FPath),
      dir.isPrefixOf q = false →
      (ps.foldl (captureStep dir) (fs, acc)).1 q = fs q := by
  induction ps with
  | nil => intro fs acc q _; rfl
  | cons p ps ih =>
    intro fs acc q hq
    have hqne : q ≠ dir ++ [baseName p] := by
      rintro rfl
      rw [show dir.isPrefixOf (dir ++ [baseName p]) = true by simp] at hq
      simp at hq
    rw [List.foldl_cons]
    cases hfp : fs p with
    | some v =>
      rw [show captureStep dir (fs, acc) p =
        (fsWrite fs (dir ++ [baseName p]) v,
          acc ++ [⟨p, dir ++ [baseName p], true⟩]) by simp [captureStep, hfp]]
      rw [ih _ _ _ hq, fsWrite_ne hqne]
    | none =>
      rw [show captureStep dir (fs, acc) p = (fs, acc ++ [⟨p, [], false⟩]) by
        simp [captureStep, hfp]]
      exact ih _ _ _ hq

/-- The records produced by the backup loop, for capture paths outside the
snapshot directory (so that earlier backup writes do not affect later
reads). -/
theorem captureFold_snd (dir : FPath) (ps : List FPath)
    (hps : ∀ p ∈ ps, dir.isPrefixOf p = false) :
    ∀ (fs : FS) (acc : List SnapFile),
      (ps.foldl (captureStep dir) (fs, acc)).2 =
        acc ++ ps.map (fun p => if (fs p).isSome then
          (⟨p, dir ++ [baseName p], true⟩ : SnapFile) else ⟨p, [], false⟩) := by
  induction ps with
  | nil => intro fs acc; simp
  | cons p ps ih =>
    intro fs acc
    have hmap : ∀ (fs' : FS), (∀ x ∈ ps, fs' x = fs x) →
        (ps.map (fun x => if (fs' x).isSome then
          (⟨x, dir ++ [baseName x], true⟩ : SnapFile) else ⟨x, [], false⟩)) =
        (ps.map (fun x => if (fs x).isSome then
          (⟨x, dir ++ [baseName x], true⟩ : SnapFile) else ⟨x, [], false⟩)) :=
      fun fs' hfs' => List.map_congr_left (fun x hx => by rw [hfs' x hx])
    rw [List.foldl_cons]
    cases hfp : fs p with
    | some v =>
      rw [show captureStep dir (fs, acc) p =
        (fsWrite fs (dir ++ [baseName p]) v,
          acc ++ [⟨p, dir ++ [baseName p], true⟩]) by simp [captureStep, hfp]]
      rw [ih (fun x hx => hps x (by simp [hx])) _ _]
      rw [hmap _ (fun x hx => fsWrite_ne (fun he => by
        have hxp := hps x (by simp [hx])
        rw [he, show dir.isPrefixOf (dir ++ [baseName p]) = true by simp] at hxp
        simp at hxp))]
      simp [hfp]
    | none =>
      rw [show captureStep dir (fs, acc) p = (fs, acc ++ [⟨p, [], false⟩]) by
        simp [captureStep, hfp]]
      rw [ih (fun x hx => hps x (by simp [hx])) _ _]
      simp [hfp]

/-- If no capture path has basename `b`, the backup slot for `b` is
untouched. -/
theorem captureFold_fst_nobase (dir : FPath) (ps : List FPath) {b : String}
    (hb : ∀ p ∈ ps, baseName p ≠ b) :
    ∀ (fs : FS) (acc : List SnapFile),
      (ps.foldl (captureStep dir) (fs, acc)).1 (dir ++ [b]) = fs (dir ++ [b]) := by
  induction ps with
  | nil => intro fs acc; rfl
  | cons p ps ih =>
    intro fs acc
    rw [List.foldl_cons]
    cases hfp : fs p with
    | some v =>
      rw [show captureStep dir (fs, acc) p =
        (fsWrite fs (dir ++ [baseName p]) v,
          acc ++ [⟨p, dir ++ [baseName p], true⟩]) by simp [captureStep, hfp]]
      rw [ih (fun x hx => hb x (by simp [hx])) _ _, fsWrite_ne (by
        intro he
        exact hb p (by simp) (by
          have := List.append_cancel_left he
          simpa using this.symm))]
    | none =>
      rw [show captureStep dir (fs, acc) p = (fs, acc ++ [⟨p, [], false⟩]) by
        simp [captureStep, hfp]]
      exact ih (fun x hx => hb x (by simp [hx])) _ _

/-- The backup slot of a captured, existing path `p₀` whose basename is
unique among the capture paths holds that file's bytes. -/
theorem captureFold_fst_backup (dir : FPath) (ps : List FPath)
    (hps : ∀ p ∈ ps, dir.isPrefixOf p = false) :
    ∀ (fs : FS) (acc : List SnapFile) (p₀ : FPath) (v : String),
      p₀ ∈ ps → fs p₀ = some v →
      (∀ p ∈ ps, baseName p = baseName p₀ → p = p₀) →
      (ps.foldl (captureStep dir) (fs, acc)).1 (dir ++ [baseName p₀]) =
        some v := by
  induction ps with
  | nil => intro fs acc p₀ v h; simp at h
  | cons p ps ih =>
    intro fs acc p₀ v hmem hv huniq
    have hpsd := fun x hx => hps x (List.mem_cons_of_mem _ hx)
    rw [List.foldl_cons]
    by_cases hmem' : p₀ ∈ ps
    · cases hfp : fs p with
      | some w =>
        rw [show captureStep dir (fs, acc) p =
          (fsWrite fs (dir ++ [baseName p]) w,
            acc ++ [⟨p, dir ++ [baseName p], true⟩]) by simp [captureStep, hfp]]
        refine ih hpsd _ _ p₀ v hmem' ?_
          (fun x hx hbx => huniq x (List.mem_cons_of_mem _ hx) hbx)
        rw [fsWrite_ne]
        · exact hv
        · exact ne_comm.1 (fun he => by
            have := hps p₀ hmem
            rw [← he, show dir.isPrefixOf (dir ++ [baseName p]) = true by simp]
              at this
            simp at this)
      | none =>
        rw [show captureStep dir (fs, acc) p = (fs, acc ++ [⟨p, [], false⟩]) by
          simp [captureStep, hfp]]
        exact ih hpsd _ _ p₀ v hmem' hv
          (fun x hx hbx => huniq x (List.mem_cons_of_mem _ hx) hbx)
    · have hp : p = p₀ := by
        rcases List.mem_cons.1 hmem with h | h
        · exact h.symm
        · exact absurd h hmem'
      subst hp
      rw [show captureStep dir (fs, acc) p =
        (fsWrite fs (dir ++ [baseName p]) v,
          acc ++ [⟨p, dir ++ [baseName p], true⟩]) by simp [captureStep, hv]]
      rw [captureFold_fst_nobase dir ps (fun x hx hbx => hmem' (by
        rw [← huniq x (List.mem_cons_of_mem _ hx) hbx]; exact hx)) _ _]
      exact fsWrite_self

/-! ## The restore loop of `rollback` -/

theorem restoreStep_outside {fs : FS} {fi : SnapFile} {q : FPath}
    (h : q ≠ fi.original_path) : restoreStep fs fi q = fs q := by
  unfold restoreStep
  split
  · cases hb : fs fi.backup_path with
    | some v => simp [fsWrite_ne h]
    | none => simp
  · exact fsUnlink_ne h

/-- The restore loop touches only the recorded original paths. -/
theorem restoreFold_outside (entries : List SnapFile) :
    ∀ (fs : FS) (q : FPath), (∀ fi ∈ entries, q ≠ fi.original_path) →
      (entries.foldl restoreStep fs) q = fs q := by
  induction entries with
  | nil => intro fs q _; rfl
  | cons e es ih =>
    intro fs q hq
    rw [List.foldl_cons, ih _ _ (fun fi hf => hq fi (by simp [hf])),
      restoreStep_outside (hq e (by simp))]

/-- The value restored at each recorded original path, provided the recorded
original paths are distinct and live outside the snapshot area while the
backups of `existed` entries live inside it. -/
theorem restoreFold_entry (entries : List SnapFile)
    (hnodup : (entries.map (·.original_path)).Nodup)
    (horig : ∀ fi ∈ entries, SNAPSHOTS_DIR.isPrefixOf fi.original_path = false)
    (hback : ∀ fi ∈ entries, fi.existed = true →
      SNAPSHOTS_DIR.isPrefixOf fi.backup_path = true) :
    ∀ (fs : FS), ∀ fi ∈ entries,
      (entries.foldl restoreStep fs) fi.original_path =
        if fi.existed then
          (match fs fi.backup_path with
            | some v => some v
            | none => fs fi.original_path)
        else none := by
  induction entries with
  | nil => intro fs fi h; simp at h
  | cons e es ih =>
    intro fs fi hmem
    obtain ⟨hnotin, hnodup'⟩ :
        (∀ x ∈ es, ¬ x.original_path = e.original_path) ∧
          (es.map (·.original_path)).Nodup := by simpa using hnodup
    rw [List.foldl_cons]
    rcases List.mem_cons.1 hmem with rfl | hmem'
    · have hpres : (es.foldl restoreStep (restoreStep fs fi)) fi.original_path =
          restoreStep fs fi fi.original_path := by
        refine restoreFold_outside es _ _ (fun fj hj he => ?_)
        exact hnotin fj hj he.symm
      rw [hpres]
      unfold restoreStep
      split
      · cases hb : fs fi.backup_path with
        | some v => simp [fsWrite_self]
        | none => simp
      · exact fsUnlink_self
    · have hstep_orig : restoreStep fs e fi.original_path = fs fi.original_path :=
        restoreStep_outside (hnotin fi hmem')
      have hstep_back : fi.existed = true →
          restoreStep fs e fi.backup_path = fs fi.backup_path := by
        intro hex
        refine restoreStep_outside (fun he => ?_)
        have h1 := hback fi (by simp [hmem']) hex
        have h2 := horig e (by simp)
        rw [← he, h1] at h2
        simp at h2
      rw [ih hnodup' (fun x hx => horig x (by simp [hx]))
        (fun x hx => hback x (by simp [hx])) _ fi hmem']
      by_cases hex : fi.existed = true
      · rw [if_pos hex, if_pos hex, hstep_back hex, hstep_orig]
      · rw [if_neg hex, if_neg hex]

/-- Backup file paths determine the snapshot id and basename. -/
theorem snapDir_backup_inj {a b x y : String} :
    (snapDir a ++ [x] : FPath) = snapDir b ++ [y] ↔ a = b ∧ x = y := by
  constructor
  · intro h
    rw [show (snapDir a ++ [x] : FPath) = SNAPSHOTS_DIR ++ ([a] ++ [x]) by
        simp [snapDir],
      show (snapDir b ++ [y] : FPath) = SNAPSHOTS_DIR ++ ([b] ++ [y]) by
        simp [snapDir]] at h
    have h2 := List.append_cancel_left h
    simpa using h2
  · rintro ⟨rfl, rfl⟩
    rfl

theorem snapshots_dir_prefixOf_of_snapDir {i : String} {q : FPath}
    (h : (snapDir i).isPrefixOf q = true) :
    SNAPSHOTS_DIR.isPrefixOf q = true := by
  rw [List.isPrefixOf_iff_prefix] at h ⊢
  exact (List.prefix_append _ _).trans h

theorem snapDir_prefixOf_backup_ne {a b x : String} (h : a ≠ b) :
    (snapDir a).isPrefixOf (snapDir b ++ [x]) = false := by
  cases hb : (snapDir a).isPrefixOf (snapDir b ++ [x]) with
  | false => rfl
  | true =>
    rw [snapDir_prefixOf_backup_iff] at hb
    exact absurd hb h

/-! ## Claim C1 -/

/-- C1: evaluating the code at the failing input.  Adding sections `ModA`
then `ModB` and removing `ModA` deletes `ModB`'s marker line and content as
well (the deletion runs to the end of the file because `##### ModB #####`
does not match the boundary regex `^#  \[.+\]\s*$`), and the presence check
for `ModB` is `false` afterwards — contradicting the claimed
non-interference.  Before the removal, `ModB`'s marker was present. -/
theorem claim1_remove_erases_following_section :
    (let f1 := (add_to_config (some "# existing\n".data) "ModA".data
      "alias a=1".data).1
     let f2 := (add_to_config f1 "ModB".data "alias b=2".data).1
     let r := remove_from_config f2 "ModA".data
     hasSubstr (f2.getD []) (startMarker "ModB".data) = true ∧
       r = (some "# existing\n\n".data, true) ∧
       hasSubstr (r.1.getD []) (startMarker "ModB".data) = false ∧
       check_installed r.1 "ModB".data = false) := by
  decide

/-! ## Claim C2 -/

/-- C2: evaluating the code at the failing input.  On a file containing only
the legacy markers for `TestModule`, `check_installed` is `true`, but
`remove_from_config` returns `false` and leaves the file unchanged (it looks
only for the `##### TestModule #####` marker), contradicting the claim (and
the repository's own test `test_remove_from_config_legacy`). -/
theorem claim2_legacy_section_not_removed :
    (let L := ("# existing\n# >>> MyShell_RFD [TestModule]\nlegacy content\n" ++
      "# <<< MyShell_RFD [TestModule]\n").data
     check_installed (some L) "TestModule".data = true ∧
       remove_from_config (some L) "TestModule".data = (some L, false)) := by
  decide

/-! ## Claim C3 -/

/-- C3: idempotence of `add_to_config`.  If a call returned `true`, a second
call with the same name (and any content) returns `false` and leaves the
file content byte-identical — no write is performed. -/
theorem claim3_add_to_config_idempotent (file : Option Chars) (X c c' : Chars)
    (h : (add_to_config file X c).2 = true) :
    add_to_config ((add_to_config file X c).1) X c' =
      ((add_to_config file X c).1, false) := by
  obtain ⟨s, hs, hinf⟩ := add_to_config_true_shape h
  rw [hs]
  exact add_to_config_marker_present X c' hinf

/-! ## Claim C4 -/

/-- C4 counterexample: `add_to_config` then `remove_from_config` on a file
with content `"# existing\n"` yields `"# existing\n\n"` — an extra blank
line — which is not byte-identical to the original content. -/
theorem claim4_counterexample :
    ((add_to_config (some "# existing\n".data) "Test".data "alias a=1".data).2
        = true) ∧
      remove_from_config
          ((add_to_config (some "# existing\n".data) "Test".data
            "alias a=1".data).1) "Test".data =
        (some "# existing\n\n".data, true) ∧
      some "# existing\n\n".data ≠ some "# existing\n".data := by
  decide

set_option maxRecDepth 100000 in
/-- C4 amended: for a file whose content `c0` is not pure whitespace, ends
with a newline but not with a blank line, contains no triple newline and no
marker for `X`, and for a name without line breaks and a content whose
stripped lines do not match the boundary regex, `add_to_config` then
`remove_from_config` yields `c0` with **one extra trailing newline** (not
`c0` itself), and the presence check for `X` is `false` afterwards; while
for an initially missing or empty (whitespace-only) file `f0` the round
trip yields exactly the standard header block `CONFIG_HEADER`. -/
theorem claim4_roundtrip_amended (c0 X c : Chars) (f0 : Option Chars)
    (hnws : (pyStrip c0).isEmpty = false)
    (hlast : c0.getLast? = some '\n')
    (hblank : ¬ ['\n', '\n'] <:+ c0)
    (htriple : ¬ tripleNL <:+: c0)
    (hm : ¬ startMarker X <:+: c0)
    (hX : ∀ ch ∈ X, isLineBreak ch = false)
    (hcontent : ∀ l ∈ pySplitLinesKeep (pyStrip c ++ ['\n']),
      sectionStartMatch l = false)
    (hchk1 : ¬ newCheckMarker X <:+: c0)
    (hchk2 : ¬ legacyMarker X <:+: c0)
    (hempty : (pyStrip (f0.getD [])).isEmpty = true) :
    (add_to_config (some c0) X c).2 = true ∧
      remove_from_config (add_to_config (some c0) X c).1 X =
        (some (c0 ++ ['\n']), true) ∧
      check_installed (remove_from_config (add_to_config (some c0) X c).1 X).1 X
        = false ∧
      (add_to_config f0 X c).2 = true ∧
      remove_from_config (add_to_config f0 X c).1 X =
        (some CONFIG_HEADER, true) := by
  have hms : hasSubstr c0 (startMarker X) = false := hasSubstr_eq_false_iff.2 hm
  have haddeq : add_to_config (some c0) X c =
      (some (c0 ++ ('\n' :: (startMarker X ++ '\n' :: (pyStrip c ++ ['\n'])))),
        true) := by
    simp only [add_to_config, hnws, Bool.false_eq_true, if_false, hms,
      Option.getD_some, hlast]
    simp
  have hXn : '\n' ∉ X := fun hmem => by
    have := hX '\n' hmem
    simp [isLineBreak] at this
  have hnotriple : hasSubstr (c0 ++ ['\n']) tripleNL = false :=
    hasSubstr_eq_false_iff.2 (no_triple_of_append_newline htriple hblank)
  have hremeq : remove_from_config
      (some (c0 ++ ('\n' :: (startMarker X ++ '\n' :: (pyStrip c ++ ['\n'])))))
      X = (some (c0 ++ ['\n']), true) := by
    rw [remove_appended_section c0 X c hlast hm hX hcontent,
      collapseBlank_eq_self hnotriple]
  have hchk : check_installed (some (c0 ++ ['\n'])) X = false := by
    have hnp1 : '\n' ∉ newCheckMarker X := by
      intro hmem
      rcases List.mem_append.1 hmem with h | h
      · rcases List.mem_append.1 h with h' | h'
        · exact absurd h' (by decide)
        · exact hXn h'
      · exact absurd h (by decide)
    have hnp2 : '\n' ∉ legacyMarker X := by
      intro hmem
      rcases List.mem_append.1 hmem with h | h
      · rcases List.mem_append.1 h with h' | h'
        · exact absurd h' (by decide)
        · exact hXn h'
      · exact absurd h (by decide)
    have h1 : hasSubstr (c0 ++ ['\n']) (newCheckMarker X) = false :=
      hasSubstr_eq_false_iff.2
        (fun hinf => hchk1 (infix_of_infix_append_newline hnp1 hinf))
    have h2 : hasSubstr (c0 ++ ['\n']) (legacyMarker X) = false :=
      hasSubstr_eq_false_iff.2
        (fun hinf => hchk2 (infix_of_infix_append_newline hnp2 hinf))
    simp [check_installed, h1, h2]
  have hmsH : hasSubstr CONFIG_HEADER (startMarker X) = false :=
    hasSubstr_eq_false_iff.2 startMarker_not_infix_header
  have haddH : add_to_config f0 X c =
      (some (CONFIG_HEADER ++
        ('\n' :: (startMarker X ++ '\n' :: (pyStrip c ++ ['\n'])))), true) := by
    have hHlast : (CONFIG_HEADER.getLast? == some '\n') = true := by decide
    match f0, hempty with
    | none, _ =>
      simp [add_to_config, hmsH, hHlast]
    | some s, hempty =>
      rw [Option.getD_some] at hempty
      simp [add_to_config, hempty, hmsH, hHlast]
  have hremH : remove_from_config
      (some (CONFIG_HEADER ++
        ('\n' :: (startMarker X ++ '\n' :: (pyStrip c ++ ['\n']))))) X =
      (some CONFIG_HEADER, true) := by
    rw [remove_appended_section CONFIG_HEADER X c (by decide)
        startMarker_not_infix_header hX hcontent,
      show collapseBlank (CONFIG_HEADER ++ ['\n']) = CONFIG_HEADER by decide]
  refine ⟨by rw [haddeq], ?_, ?_, by rw [haddH], ?_⟩
  · rw [haddeq]
    exact hremeq
  · rw [haddeq]
    dsimp only
    rw [hremeq]
    exact hchk
  · rw [haddH]
    exact hremH

/-- Witness for C4's amended theorem at a concrete input, exercising both
the non-empty branch and the missing-file branch. -/
theorem claim4_amended_witness :
    ((pyStrip "# existing\n".data).isEmpty = false) ∧
      (add_to_config (some "# existing\n".data) "Test".data "alias a=1".data).2
          = true ∧
      remove_from_config
          ((add_to_config (some "# existing\n".data) "Test".data
            "alias a=1".data).1) "Test".data =
        (some ("# existing\n".data ++ ['\n']), true) ∧
      remove_from_config
          ((add_to_config none "Test".data "alias a=1".data).1) "Test".data =
        (some CONFIG_HEADER, true) := by
  have h := claim4_roundtrip_amended "# existing\n".data "Test".data
    "alias a=1".data none (by decide) (by decide) (by decide) (by decide)
    (by decide) (by decide) (by decide) (by decide) (by decide) (by decide)
  exact ⟨by decide, h.1, h.2.1, h.2.2.2.2⟩

/-- Witness for C3 at a concrete input. -/
theorem claim3_witness :
    ((add_to_config (some "# existing\n".data) "Test".data "alias a=1".data).2
        = true) ∧
      add_to_config
          ((add_to_config (some "# existing\n".data) "Test".data
            "alias a=1".data).1) "Test".data "other".data =
        ((add_to_config (some "# existing\n".data) "Test".data
          "alias a=1".data).1, false) :=
  ⟨by decide, claim3_add_to_config_idempotent _ _ _ _ (by decide)⟩

/-! ## Claim C6 -/

/-- C6: retention-cap invariant of `create_snapshot`.  After any call the
index is the new snapshot followed by the previous ones, truncated to
`max_snapshots` entries; the newly created snapshot is the head (never the
one discarded, for any positive cap), and every pruned snapshot's backup
directory is deleted. -/
theorem claim6_retention_cap (maxS : Nat) (id ts desc : String)
    (files : List FPath) (modules : List String) (st : RState)
    (hmax : 1 ≤ maxS) :
    list_snapshots (create_snapshot maxS id ts desc files modules st).1 =
      ((create_snapshot maxS id ts desc files modules st).2 ::
        st.snapshots).take maxS ∧
    (list_snapshots (create_snapshot maxS id ts desc files modules st).1).length
      ≤ maxS ∧
    (list_snapshots (create_snapshot maxS id ts desc files modules st).1).head?
      = some (create_snapshot maxS id ts desc files modules st).2 ∧
    ∀ t ∈ ((create_snapshot maxS id ts desc files modules st).2 ::
        st.snapshots).drop maxS, ∀ q : FPath,
      (snapDir t.id).isPrefixOf q = true →
      (create_snapshot maxS id ts desc files modules st).1.fs q = none := by
  obtain ⟨m, rfl⟩ : ∃ m, maxS = m + 1 := ⟨maxS - 1, by omega⟩
  have hfst : list_snapshots (create_snapshot (m + 1) id ts desc files modules
      st).1 = ((create_snapshot (m + 1) id ts desc files modules st).2 ::
        st.snapshots).take (m + 1) := by
    simp only [create_snapshot, list_snapshots]
    exact cleanup_old_fst _ _ _
  refine ⟨hfst, ?_, ?_, ?_⟩
  · rw [hfst, List.length_take]
    exact Nat.min_le_left _ _
  · rw [hfst, List.take_succ_cons]
    rfl
  · intro t ht q hq
    simp only [create_snapshot] at ht ⊢
    rw [cleanup_old_snd, if_pos]
    rw [List.any_eq_true]
    exact ⟨t, ht, hq⟩

/-- Witness for C6 at a concrete input (cap 1, one older snapshot): the
index after the call is exactly the one-element truncation headed by the new
snapshot. -/
theorem claim6_witness :
    1 ≤ 1 ∧
      list_snapshots (create_snapshot 1 "bbbb" "t1" "d1" [] [] stA).1 =
        ((create_snapshot 1 "bbbb" "t1" "d1" [] [] stA).2 ::
          stA.snapshots).take 1 :=
  ⟨by decide, (claim6_retention_cap 1 "bbbb" "t1" "d1" [] [] stA (by decide)).1⟩

/-! ## Claim C7 -/

/-- C7: capturing a non-existent path records
`SnapshotFile(original_path, "", existed=false)` (the empty backup path is
modelled by `[]`), copies nothing, and a later rollback to that snapshot
deletes the path if it has been created in the meantime.  The cap is assumed
not to be reached so that "copies nothing" is meaningful for the whole
state. -/
theorem claim7_absent_capture_restores_absence (maxS : Nat)
    (i1 ts1 i2 ts2 d : String) (p : FPath) (v : String) (st : RState)
    (hmiss : st.fs p = none)
    (hsmall : st.snapshots.length < maxS) :
    (create_snapshot maxS i1 ts1 d [p] [] st).2.files = [⟨p, [], false⟩] ∧
    (∀ q : FPath, (create_snapshot maxS i1 ts1 d [p] [] st).1.fs q = st.fs q) ∧
    (rollback maxS i2 ts2 i1
      ⟨(create_snapshot maxS i1 ts1 d [p] [] st).1.snapshots,
        fsWrite (create_snapshot maxS i1 ts1 d [p] [] st).1.fs p v⟩).2 = true ∧
    (rollback maxS i2 ts2 i1
      ⟨(create_snapshot maxS i1 ts1 d [p] [] st).1.snapshots,
        fsWrite (create_snapshot maxS i1 ts1 d [p] [] st).1.fs p v⟩).1.fs p
      = none := by
  have hfold : ([p].foldl (captureStep (snapDir i1)) (st.fs, [])) =
      (st.fs, [⟨p, [], false⟩]) := by
    simp [captureStep, hmiss]
  have hsnap : (create_snapshot maxS i1 ts1 d [p] [] st).2 =
      ⟨i1, ts1, d, [⟨p, [], false⟩], []⟩ := by
    simp only [create_snapshot, hfold]
  have hsnaps : (create_snapshot maxS i1 ts1 d [p] [] st).1.snapshots =
      (⟨i1, ts1, d, [⟨p, [], false⟩], []⟩ : Snapshot) :: st.snapshots := by
    simp only [create_snapshot, hfold]
    rw [cleanup_old_fst, List.take_of_length_le (by simp; omega)]
  have hfs : ∀ q, (create_snapshot maxS i1 ts1 d [p] [] st).1.fs q = st.fs q := by
    intro q
    simp only [create_snapshot, hfold]
    rw [cleanup_old_snd_preserve]
    rw [List.drop_eq_nil_of_le (by simp; omega)]
    intro t ht
    simp at ht
  have hget : get_snapshot
      (create_snapshot maxS i1 ts1 d [p] [] st).1.snapshots i1 =
      some ⟨i1, ts1, d, [⟨p, [], false⟩], []⟩ := by
    rw [hsnaps]
    exact List.find?_cons_of_pos _ (by rw [List.isPrefixOf_iff_prefix])
  refine ⟨by rw [hsnap], hfs, ?_, ?_⟩
  · simp only [rollback, hget]
  · simp only [rollback, hget, List.foldl_cons, List.foldl_nil]
    simp [restoreStep, fsUnlink]

/-- Witness for C7 at a concrete input. -/
theorem claim7_witness :
    ((⟨[], fun _ => none⟩ : RState).fs ["g"] = none) ∧
      (create_snapshot 5 "cccc" "t" "d" [["g"]] []
        ⟨[], fun _ => none⟩).2.files = [⟨["g"], [], false⟩] ∧
      (rollback 5 "dddd" "t2" "cccc"
        ⟨(create_snapshot 5 "cccc" "t" "d" [["g"]] []
            ⟨[], fun _ => none⟩).1.snapshots,
          fsWrite (create_snapshot 5 "cccc" "t" "d" [["g"]] []
            ⟨[], fun _ => none⟩).1.fs ["g"] "new"⟩).1.fs ["g"] = none := by
  have h := claim7_absent_capture_restores_absence 5 "cccc" "t" "dddd" "t2"
    "d" ["g"] "new" ⟨[], fun _ => none⟩ rfl (by decide)
  exact ⟨rfl, h.1, h.2.2.2⟩

/-! ## Claim C5 -/

/-- C5: snapshot/rollback round-trip.  Capture `f` holding `v1`, overwrite it
with `v2`, roll back to the snapshot: the rollback succeeds and `f` holds
`v1` again.  Hypotheses: the cap is at least 2 (so that the interleaved
pre-rollback snapshot cannot prune the target snapshot itself — see C10 for
what happens otherwise), `f` is not inside the snapshot storage area, the
oracle ids are fresh. -/
theorem claim5_snapshot_rollback_roundtrip (maxS : Nat) (i1 ts1 i2 ts2 : String)
    (f : FPath) (v1 v2 : String) (st : RState)
    (hmax : 2 ≤ maxS)
    (hf : st.fs f = some v1)
    (hout : SNAPSHOTS_DIR.isPrefixOf f = false)
    (hfresh : ∀ t ∈ st.snapshots, t.id ≠ i1)
    (hi12 : i2 ≠ i1) :
    (rollback maxS i2 ts2 i1
      ⟨(create_snapshot maxS i1 ts1 "s1" [f] [] st).1.snapshots,
        fsWrite (create_snapshot maxS i1 ts1 "s1" [f] [] st).1.fs f v2⟩).2
      = true ∧
    (rollback maxS i2 ts2 i1
      ⟨(create_snapshot maxS i1 ts1 "s1" [f] [] st).1.snapshots,
        fsWrite (create_snapshot maxS i1 ts1 "s1" [f] [] st).1.fs f v2⟩).1.fs f
      = some v1 := by
  obtain ⟨m, rfl⟩ : ∃ m, maxS = m + 2 := ⟨maxS - 2, by omega⟩
  have hbne : f ≠ snapDir i1 ++ [baseName f] := ne_backup_of_not_under hout
  have hfold : [f].foldl (captureStep (snapDir i1)) (st.fs, []) =
      (fsWrite st.fs (snapDir i1 ++ [baseName f]) v1,
        [⟨f, snapDir i1 ++ [baseName f], true⟩]) := by
    simp [captureStep, hf]
  set sl := (create_snapshot (m + 2) i1 ts1 "s1" [f] [] st).1.snapshots
    with hsl
  set g := (create_snapshot (m + 2) i1 ts1 "s1" [f] [] st).1.fs with hg
  have hsnaps : sl =
      (⟨i1, ts1, "s1", [⟨f, snapDir i1 ++ [baseName f], true⟩], []⟩ :
        Snapshot) :: (st.snapshots.take (m + 1)) := by
    rw [hsl]
    simp only [create_snapshot, hfold]
    rw [cleanup_old_fst, List.take_succ_cons]
  have hfs1_backup : g (snapDir i1 ++ [baseName f]) = some v1 := by
    rw [hg]
    simp only [create_snapshot, hfold]
    rw [cleanup_old_snd_preserve, fsWrite_self]
    intro t ht
    rw [List.drop_succ_cons] at ht
    have htm : t ∈ st.snapshots := (List.drop_sublist _ _).subset ht
    exact snapDir_prefixOf_backup_ne (hfresh t htm)
  have hget : get_snapshot (⟨sl, fsWrite g f v2⟩ : RState).snapshots i1 =
      some ⟨i1, ts1, "s1", [⟨f, snapDir i1 ++ [baseName f], true⟩], []⟩ := by
    show get_snapshot sl i1 = _
    rw [hsnaps]
    exact List.find?_cons_of_pos _ (by rw [List.isPrefixOf_iff_prefix])
  have hst2f : (fsWrite g f v2) f = some v2 := fsWrite_self
  have hfold2 : [f].foldl (captureStep (snapDir i2)) (fsWrite g f v2, []) =
      (fsWrite (fsWrite g f v2) (snapDir i2 ++ [baseName f]) v2,
        [⟨f, snapDir i2 ++ [baseName f], true⟩]) := by
    simp [captureStep, hst2f]
  have hpreB : (create_snapshot (m + 2) i2 ts2
      ("Pre-rollback state (before " ++ i1 ++ ")") [f] []
      ⟨sl, fsWrite g f v2⟩).1.fs (snapDir i1 ++ [baseName f]) = some v1 := by
    simp only [create_snapshot, hfold2]
    rw [cleanup_old_snd_preserve]
    · rw [fsWrite_ne (by
        intro he
        exact hi12 (snapDir_backup_inj.1 he).1.symm),
        fsWrite_ne (Ne.symm hbne)]
      exact hfs1_backup
    · intro t ht
      rw [List.drop_succ_cons, hsnaps, List.drop_succ_cons] at ht
      have htm : t ∈ st.snapshots :=
        (List.take_sublist _ _).subset ((List.drop_sublist _ _).subset ht)
      exact snapDir_prefixOf_backup_ne (hfresh t htm)
  constructor
  · simp only [rollback, hget]
  · simp only [rollback, hget, List.foldl_cons, List.foldl_nil, restoreStep,
      List.map_cons, List.map_nil]
    rw [hpreB]
    exact fsWrite_self

/-- Witness for C5 at a concrete input: starting from an empty manager. -/
theorem claim5_witness :
    ((⟨[], fun q => if q = ["f"] then some "v1" else none⟩ : RState).fs ["f"]
        = some "v1") ∧
      (rollback 2 "bbbb" "t2" "aaaa"
        ⟨(create_snapshot 2 "aaaa" "t1" "s1" [["f"]] []
            ⟨[], fun q => if q = ["f"] then some "v1" else none⟩).1.snapshots,
          fsWrite (create_snapshot 2 "aaaa" "t1" "s1" [["f"]] []
            ⟨[], fun q => if q = ["f"] then some "v1" else none⟩).1.fs
            ["f"] "v2"⟩).2 = true ∧
      (rollback 2 "bbbb" "t2" "aaaa"
        ⟨(create_snapshot 2 "aaaa" "t1" "s1" [["f"]] []
            ⟨[], fun q => if q = ["f"] then some "v1" else none⟩).1.snapshots,
          fsWrite (create_snapshot 2 "aaaa" "t1" "s1" [["f"]] []
            ⟨[], fun q => if q = ["f"] then some "v1" else none⟩).1.fs
            ["f"] "v2"⟩).1.fs ["f"] = some "v1" := by
  have h := claim5_snapshot_rollback_roundtrip 2 "aaaa" "t1" "bbbb" "t2"
    ["f"] "v1" "v2" ⟨[], fun q => if q = ["f"] then some "v1" else none⟩
    (by decide) (by decide) (by decide) (by decide) (by decide)
  exact ⟨by decide, h.1, h.2⟩

/-! ## Claim C10 -/

/-- C10: a rollback whose id resolves always returns success, regardless of
whether anything is restored.  In particular, when the index is at the cap
and the target is the oldest snapshot, the pre-rollback snapshot created
inside `rollback` prunes the target's own backup directory before the
restore loop runs, so every `existed` file is silently skipped: `rollback`
returns `true` while the referenced files keep their current contents. -/
theorem claim10_rollback_best_effort (maxS : Nat) (i2 ts2 sid : String)
    (st : RState) (s : Snapshot)
    (hres : get_snapshot st.snapshots sid = some s) :
    (rollback maxS i2 ts2 sid st).2 = true ∧
    (st.snapshots.length = maxS →
      st.snapshots.getLast? = some s →
      i2 ≠ s.id →
      (s.files.map (·.original_path)).Nodup →
      (∀ fi ∈ s.files, SNAPSHOTS_DIR.isPrefixOf fi.original_path = false) →
      (∀ fi ∈ s.files, fi.existed = true →
        (snapDir s.id).isPrefixOf fi.backup_path = true) →
      (∀ q : FPath, (snapDir s.id).isPrefixOf q = true →
        (rollback maxS i2 ts2 sid st).1.fs q = none) ∧
      (∀ fi ∈ s.files, fi.existed = true →
        (rollback maxS i2 ts2 sid st).1.fs fi.original_path =
          st.fs fi.original_path)) := by
  constructor
  · simp only [rollback, hres]
  · intro hlen hlast hneid hnodup horig hback
    obtain ⟨ys, hys⟩ := List.getLast?_eq_some_iff.1 hlast
    have hlen' : maxS = ys.length + 1 := by
      rw [hys] at hlen
      simpa using hlen.symm
    have hdropAll : ∀ x : Snapshot, (x :: st.snapshots).drop maxS = [s] := by
      intro x
      rw [hlen', List.drop_succ_cons, hys,
        show ys.length = ys.length from rfl, List.drop_left]
    have hcleanN : ∀ q : FPath, (snapDir s.id).isPrefixOf q = true →
        (create_snapshot maxS i2 ts2
          ("Pre-rollback state (before " ++ s.id ++ ")")
          (s.files.map (·.original_path)) [] st).1.fs q = none := by
      intro q hq
      simp only [create_snapshot]
      rw [cleanup_old_snd, if_pos]
      rw [List.any_eq_true]
      exact ⟨s, by rw [hdropAll]; simp, hq⟩
    have hpreOrig : ∀ fi ∈ s.files,
        (create_snapshot maxS i2 ts2
          ("Pre-rollback state (before " ++ s.id ++ ")")
          (s.files.map (·.original_path)) [] st).1.fs fi.original_path =
          st.fs fi.original_path := by
      intro fi hfi
      simp only [create_snapshot]
      rw [cleanup_old_snd_preserve, captureFold_fst_outside]
      · exact not_snapDir_prefixOf_of_not_under (horig fi hfi)
      · intro t ht
        rw [hdropAll] at ht
        rw [show t = s by simpa using ht]
        exact not_snapDir_prefixOf_of_not_under (horig fi hfi)
    constructor
    · intro q hq
      simp only [rollback, hres]
      rw [restoreFold_outside]
      · exact hcleanN q hq
      · intro fi hfi he
        have h1 := horig fi hfi
        rw [← he, snapshots_dir_prefixOf_of_snapDir hq] at h1
        simp at h1
    · intro fi hfi hex
      simp only [rollback, hres]
      rw [restoreFold_entry s.files hnodup horig
        (fun x hx h => snapshots_dir_prefixOf_of_snapDir (hback x hx h))
        _ fi hfi, if_pos hex, hcleanN fi.backup_path (hback fi hfi hex)]
      exact hpreOrig fi hfi

/-- Witness for C10 at a concrete at-cap state: the manager holds exactly
one snapshot (`max_snapshots = 1`), rolling back to it succeeds while the
captured file keeps its current content. -/
theorem claim10_witness :
    (get_snapshot stA.snapshots "aaaa" = some snapA) ∧
      (rollback 1 "bbbb" "t1" "aaaa" stA).2 = true ∧
      (rollback 1 "bbbb" "t1" "aaaa" stA).1.fs
          ((⟨["f"], snapDir "aaaa" ++ ["f"], true⟩ : SnapFile).original_path) =
        stA.fs ((⟨["f"], snapDir "aaaa" ++ ["f"], true⟩ :
          SnapFile).original_path) := by
  have h := claim10_rollback_best_effort 1 "bbbb" "t1" "aaaa" stA snapA
    (by decide)
  have hB := (h.2 (by decide) (by decide) (by decide) (by decide) (by decide)
    (by decide)).2 ⟨["f"], snapDir "aaaa" ++ ["f"], true⟩ (by decide) (by decide)
  exact ⟨by decide, h.1, hB⟩

/-! ## Claim C8 -/

/-- C8: rollback is itself undoable.  For any resolved snapshot `s`,
`rollback` first creates a snapshot of the current state of exactly the
files referenced by `s`, described as the pre-rollback state; it is the head
of `listSnapshots()` afterwards, and rolling back to it restores, at every
path referenced by `s`, the contents that held immediately before the first
rollback.  Hypotheses: cap at least 2, referenced paths outside the snapshot
area with pairwise distinct basenames, fresh oracle ids. -/
theorem claim8_rollback_undoable (maxS : Nat) (sid i2 ts2 i3 ts3 : String)
    (st : RState) (s : Snapshot)
    (hmax : 2 ≤ maxS)
    (hres : get_snapshot st.snapshots sid = some s)
    (horig : ∀ fi ∈ s.files, SNAPSHOTS_DIR.isPrefixOf fi.original_path = false)
    (hnodup : (s.files.map (fun fi => baseName fi.original_path)).Nodup)
    (hi2 : ∀ t ∈ st.snapshots, t.id ≠ i2)
    (hii : i3 ≠ i2) :
    (rollback maxS i2 ts2 sid st).2 = true ∧
    (rollback maxS i2 ts2 sid st).1.snapshots.head? =
      some (create_snapshot maxS i2 ts2
        ("Pre-rollback state (before " ++ s.id ++ ")")
        (s.files.map (fun fi => fi.original_path)) [] st).2 ∧
    (create_snapshot maxS i2 ts2
      ("Pre-rollback state (before " ++ s.id ++ ")")
      (s.files.map (fun fi => fi.original_path)) [] st).2.description =
      "Pre-rollback state (before " ++ s.id ++ ")" ∧
    ((create_snapshot maxS i2 ts2
      ("Pre-rollback state (before " ++ s.id ++ ")")
      (s.files.map (fun fi => fi.original_path)) [] st).2.files.map
        (fun fi => fi.original_path)) =
      s.files.map (fun fi => fi.original_path) ∧
    (rollback maxS i3 ts3 i2 (rollback maxS i2 ts2 sid st).1).2 = true ∧
    ∀ p ∈ s.files.map (fun fi => fi.original_path),
      (rollback maxS i3 ts3 i2 (rollback maxS i2 ts2 sid st).1).1.fs p =
        st.fs p := by
  obtain ⟨m, rfl⟩ : ∃ m, maxS = m + 2 := ⟨maxS - 2, by omega⟩
  set ps := s.files.map (fun fi => fi.original_path) with hps
  set d2 := "Pre-rollback state (before " ++ s.id ++ ")" with hd2
  have hpsout : ∀ p ∈ ps, SNAPSHOTS_DIR.isPrefixOf p = false := by
    intro p hp
    obtain ⟨fi, hfi, rfl⟩ := List.mem_map.1 hp
    exact horig fi hfi
  have hpsdir : ∀ (j : String), ∀ p ∈ ps, (snapDir j).isPrefixOf p = false :=
    fun j p hp => not_snapDir_prefixOf_of_not_under (hpsout p hp)
  have hbasemap : ps.map baseName =
      s.files.map (fun fi => baseName fi.original_path) := by
    rw [hps, List.map_map]
    rfl
  have hbase_inj : ∀ a ∈ ps, ∀ b ∈ ps, baseName a = baseName b → a = b :=
    List.inj_on_of_nodup_map (by rw [hbasemap]; exact hnodup)
  have hpsnodup : ps.Nodup :=
    List.Nodup.of_map baseName (by rw [hbasemap]; exact hnodup)
  have hpre2 : (create_snapshot (m + 2) i2 ts2 d2 ps [] st).2 =
      ⟨i2, ts2, d2, ps.map (fun p => if (st.fs p).isSome then
        (⟨p, snapDir i2 ++ [baseName p], true⟩ : SnapFile)
        else ⟨p, [], false⟩), []⟩ := by
    simp only [create_snapshot]
    rw [captureFold_snd (snapDir i2) ps (hpsdir i2) st.fs [], List.nil_append]
  set preFiles := ps.map (fun p => if (st.fs p).isSome then
    (⟨p, snapDir i2 ++ [baseName p], true⟩ : SnapFile) else ⟨p, [], false⟩)
    with hpreFiles
  have hmaporig : preFiles.map (fun fi => fi.original_path) = ps := by
    rw [hpreFiles, List.map_map]
    rw [List.map_congr_left (fun p _ => ?_), List.map_id]
    by_cases h : (st.fs p).isSome <;> simp [h]
  have hsl1 : (create_snapshot (m + 2) i2 ts2 d2 ps [] st).1.snapshots =
      (⟨i2, ts2, d2, preFiles, []⟩ : Snapshot) ::
        st.snapshots.take (m + 1) := by
    simp only [create_snapshot]
    rw [cleanup_old_fst, List.take_succ_cons]
    rw [show (⟨i2, ts2, d2,
      (ps.foldl (captureStep (snapDir i2)) (st.fs, [])).2, []⟩ : Snapshot) =
        ⟨i2, ts2, d2, preFiles, []⟩ from by
      rw [captureFold_snd (snapDir i2) ps (hpsdir i2) st.fs [],
        List.nil_append]]
  have hr1 : rollback (m + 2) i2 ts2 sid st =
      (⟨(create_snapshot (m + 2) i2 ts2 d2 ps [] st).1.snapshots,
        s.files.foldl restoreStep
          (create_snapshot (m + 2) i2 ts2 d2 ps [] st).1.fs⟩, true) := by
    simp only [rollback, hres]
  set slA := (create_snapshot (m + 2) i2 ts2 d2 ps [] st).1.snapshots
    with hslA
  set gA := (create_snapshot (m + 2) i2 ts2 d2 ps [] st).1.fs with hgA
  have hfsA_backup : ∀ p ∈ ps, ∀ v : String, st.fs p = some v →
      gA (snapDir i2 ++ [baseName p]) = some v := by
    intro p hp v hv
    rw [hgA]
    simp only [create_snapshot]
    rw [cleanup_old_snd_preserve]
    · exact captureFold_fst_backup (snapDir i2) ps (hpsdir i2) st.fs [] p v hp
        hv (fun x hx hbx => hbase_inj x hx p hp hbx)
    · intro t ht
      rw [List.drop_succ_cons] at ht
      exact snapDir_prefixOf_backup_ne
        (hi2 t ((List.drop_sublist _ _).subset ht))
  have hfs1_bk : ∀ p ∈ ps,
      (s.files.foldl restoreStep gA) (snapDir i2 ++ [baseName p]) =
      gA (snapDir i2 ++ [baseName p]) := by
    intro p hp
    refine restoreFold_outside s.files _ _ (fun fi hfi he => ?_)
    have h1 := horig fi hfi
    rw [← he, snapshots_dir_prefixOf_of_snapDir snapDir_prefixOf_backup] at h1
    simp at h1
  have hget2 : get_snapshot slA i2 =
      some ⟨i2, ts2, d2, preFiles, []⟩ := by
    rw [hsl1]
    exact List.find?_cons_of_pos _ (by rw [List.isPrefixOf_iff_prefix])
  have hnodupE : (preFiles.map (fun fi => fi.original_path)).Nodup := by
    rw [hmaporig]
    exact hpsnodup
  have horigE : ∀ fi ∈ preFiles,
      SNAPSHOTS_DIR.isPrefixOf fi.original_path = false := by
    intro fi hfi
    rw [hpreFiles] at hfi
    obtain ⟨p, hp, rfl⟩ := List.mem_map.1 hfi
    by_cases h : (st.fs p).isSome <;> simp [h] <;> exact hpsout p hp
  have hbackE : ∀ fi ∈ preFiles, fi.existed = true →
      SNAPSHOTS_DIR.isPrefixOf fi.backup_path = true := by
    intro fi hfi hex
    rw [hpreFiles] at hfi
    obtain ⟨p, hp, rfl⟩ := List.mem_map.1 hfi
    by_cases h : (st.fs p).isSome
    · simp only [h, if_true]
      exact snapshots_dir_prefixOf_of_snapDir snapDir_prefixOf_backup
    · simp [h] at hex
  refine ⟨by rw [hr1], ?_, by rw [hpre2], ?_, ?_, ?_⟩
  · rw [hr1, hpre2]
    show slA.head? = some (⟨i2, ts2, d2, preFiles, []⟩ : Snapshot)
    rw [hsl1]
    rfl
  · rw [hpre2]
    exact hmaporig
  · rw [hr1]
    simp only [rollback, hget2]
  · intro p hp
    rw [hr1]
    simp only [rollback, hget2]
    rw [hmaporig]
    set fsC2 := (create_snapshot (m + 2) i3 ts3
      ("Pre-rollback state (before " ++ i2 ++ ")") ps []
      ⟨slA, List.foldl restoreStep gA s.files⟩).1.fs with hfsC2
    have hC2bk : ∀ v : String, st.fs p = some v →
        fsC2 (snapDir i2 ++ [baseName p]) = some v := by
      intro v hv
      rw [hfsC2]
      simp only [create_snapshot]
      rw [cleanup_old_snd_preserve]
      · rw [captureFold_fst_outside (snapDir i3) ps _ _ _
          (snapDir_prefixOf_backup_ne hii)]
        rw [hfs1_bk p hp]
        exact hfsA_backup p hp v hv
      · intro t ht
        rw [List.drop_succ_cons] at ht
        rw [hsl1, List.drop_succ_cons] at ht
        have htm : t ∈ st.snapshots :=
          (List.take_sublist _ _).subset ((List.drop_sublist _ _).subset ht)
        exact snapDir_prefixOf_backup_ne (hi2 t htm)
    cases hv : st.fs p with
    | some v =>
      have hfi : (⟨p, snapDir i2 ++ [baseName p], true⟩ : SnapFile) ∈
          preFiles := by
        rw [hpreFiles]
        have := List.mem_map_of_mem (fun p => if (st.fs p).isSome then
          (⟨p, snapDir i2 ++ [baseName p], true⟩ : SnapFile)
          else ⟨p, [], false⟩) hp
        simpa [hv] using this
      have hE := restoreFold_entry preFiles hnodupE horigE hbackE fsC2 _ hfi
      dsimp only at hE
      rw [if_pos rfl, hC2bk v hv] at hE
      rw [hE]
    | none =>
      have hfi : (⟨p, [], false⟩ : SnapFile) ∈ preFiles := by
        rw [hpreFiles]
        have := List.mem_map_of_mem (fun p => if (st.fs p).isSome then
          (⟨p, snapDir i2 ++ [baseName p], true⟩ : SnapFile)
          else ⟨p, [], false⟩) hp
        simpa [hv] using this
      have hE := restoreFold_entry preFiles hnodupE horigE hbackE fsC2 _ hfi
      dsimp only at hE
      rw [if_neg (by simp)] at hE
      rw [hE]

/-- Witness for C8 at a concrete input: both rollbacks succeed, and after
rolling back to the pre-rollback snapshot the captured file holds the
content it had immediately before the first rollback. -/
theorem claim8_witness :
    (rollback 2 "bbbb" "t2" "aaaa" stA).2 = true ∧
      (rollback 2 "cccc" "t3" "bbbb" (rollback 2 "bbbb" "t2" "aaaa" stA).1).2
        = true ∧
      (rollback 2 "cccc" "t3" "bbbb"
          (rollback 2 "bbbb" "t2" "aaaa" stA).1).1.fs ["f"] = stA.fs ["f"] := by
  have h := claim8_rollback_undoable 2 "aaaa" "bbbb" "t2" "cccc" "t3" stA snapA
    (by decide) (by decide) (by decide) (by decide) (by decide) (by decide)
  exact ⟨h.1, h.2.2.2.2.1, h.2.2.2.2.2 ["f"] (by decide)⟩

/-! ## Claim C9 -/

/-- C9 counterexample: an index file whose content is valid JSON of the
wrong shape — the list `["x"]` — makes `_load_index` raise an uncaught
`AttributeError` (from `data.get` on a string) instead of degrading to an
empty index. -/
theorem claim9_counterexample :
    load_index (some (some (JValue.arrV [JValue.strV "x"]))) =
      Except.error PyErr.attributeError := rfl

/-- C9 amended: loading degrades to the empty snapshot list when the index
file is missing, when its content is not valid JSON (`json.JSONDecodeError`
is caught), and when the content parses but rebuilding the snapshots raises
`KeyError` — an entry object lacking a required key — since `KeyError` is
caught too; valid JSON of another unexpected shape raises an uncaught error
to the caller. -/
theorem claim9_load_degrades_amended (r : Option (Option JValue))
    (h : (∀ v, r ≠ some (some v)) ∨
      ∃ v, r = some (some v) ∧
        (do
          let items ← pyIterate v
          items.mapM snapshot_from_dict :
            Except PyErr (List ParsedSnapshot)) =
          Except.error PyErr.keyError) :
    load_index r = Except.ok [] := by
  rcases h with h | ⟨v, rfl, hk⟩
  · match r with
    | none => rfl
    | some none => rfl
    | some (some v) => exact absurd rfl (h v)
  · have hstep : load_index (some (some v)) =
        match (do
          let items ← pyIterate v
          items.mapM snapshot_from_dict :
            Except PyErr (List ParsedSnapshot)) with
        | .ok l => .ok l
        | .error .keyError => .ok []
        | .error e => .error e := rfl
    rw [hstep, hk]

/-- Witness for C9's amended theorem: an index entry that is an empty JSON
object lacks the required `id` key, so the rebuild raises `KeyError` and
loading degrades to the empty list. -/
theorem claim9_witness :
    ((do
        let items ← pyIterate (JValue.arrV [JValue.objV []])
        items.mapM snapshot_from_dict :
          Except PyErr (List ParsedSnapshot)) =
        Except.error PyErr.keyError) ∧
      load_index (some (some (JValue.arrV [JValue.objV []]))) = Except.ok [] :=
  ⟨rfl, claim9_load_degrades_amended (some (some (JValue.arrV [JValue.objV []])))
    (Or.inr ⟨JValue.arrV [JValue.objV []], rfl, rfl⟩)⟩

end MyShellRFD
